import Mathlib

/-!
Shallow embedding of the accessibility rewriting engine of
`src/lib/accessibility-fixer.ts` (the functions `fixAccessibility` and
`generateDiff`) and of the parallel rule passes of the AI service layer
(`AIAccessibilityService.applyFixes` and
`AIAccessibilityService.performBasicAnalysis`).

Strings are modelled as `List Char` (ASCII).  Each JavaScript regular
expression of the source is translated into an explicit scanner that
reproduces its matching semantics (case-insensitive literals, `[^>]`
character classes bounded by the first `>`, lazy quantifiers, word
boundaries `\b`, and the left-to-right global-replace loop of
`String.replace` with the `g` flag).
-/

/-- ASCII lower-casing, as used by the `i` flag of the source regexes. -/
def lowerChar (c : Char) : Char :=
  if 'A' ≤ c ∧ c ≤ 'Z' then Char.ofNat (c.toNat + 32) else c

/-- JavaScript regex word character (`\w` = `[A-Za-z0-9_]`), used for `\b`. -/
def isWordChar (c : Char) : Bool :=
  c.isAlpha || c.isDigit || c = '_'

/-- JavaScript whitespace class `\s` (restricted to its ASCII members),
also the class trimmed by `String.prototype.trim`. -/
def isJsWs (c : Char) : Bool :=
  c = ' ' || c = '\t' || c = '\n' || c = '\r' || c = Char.ofNat 11 || c = Char.ofNat 12

/-- Case-insensitive literal match: if `pat` (compared through `lowerChar`)
is a prefix of `cs`, return the remainder. -/
def stripPrefixCI : List Char → List Char → Option (List Char)
  | [], cs => some cs
  | _ :: _, [] => none
  | p :: ps, c :: cs => if lowerChar c = lowerChar p then stripPrefixCI ps cs else none

/-- Case-sensitive literal match returning the remainder. -/
def stripPrefixLit : List Char → List Char → Option (List Char)
  | [], cs => some cs
  | _ :: _, [] => none
  | p :: ps, c :: cs => if c = p then stripPrefixLit ps cs else none

/-- Split at the first `>`: `splitAtGt cs = some (a, r)` when
`cs = a ++ '>' :: r` with `a` free of `>`.  This is how every
`[^>]*?` + `>` (and the span inspected by a `(?![^>]*…)` lookahead)
resolves in the source patterns. -/
def splitAtGt : List Char → Option (List Char × List Char)
  | [] => none
  | c :: cs =>
    if c = '>' then some ([], cs)
    else (splitAtGt cs).map (fun p => (c :: p.1, p.2))

/-- JS `String.prototype.includes` (case-sensitive substring search). -/
def containsSubstr (cs pat : List Char) : Bool :=
  match cs with
  | [] => pat.isEmpty
  | _ :: rest => pat.isPrefixOf cs || containsSubstr rest pat

/-- JS `String.prototype.replace(pat, rep)` with a plain-string pattern:
replace the first occurrence of `pat`, or return the text unchanged when
`pat` does not occur (no `$` sequences appear in the replacements used by
the source). -/
def replaceFirstSubstr (cs pat rep : List Char) : List Char :=
  match cs with
  | [] => []
  | c :: rest =>
    if pat.isPrefixOf cs then rep ++ cs.drop pat.length
    else c :: replaceFirstSubstr rest pat rep

/-- JS `String.prototype.trim` (both ends, whitespace class `isJsWs`). -/
def jsTrim (cs : List Char) : List Char :=
  ((cs.dropWhile isJsWs).reverse.dropWhile isJsWs).reverse

/-- JS `String.prototype.split('\n')`: never empty; one entry per line. -/
def jsSplitNl : List Char → List (List Char)
  | [] => [[]]
  | c :: rest =>
    if c = '\n' then [] :: jsSplitNl rest
    else
      match jsSplitNl rest with
      | [] => [[c]]
      | l :: ls => (c :: l) :: ls

/-- The source's `getLineNumber`:
`sourceCode.substring(0, index).split('\n').length + lineOffset`, where
`lineOffset` stays `0` throughout the source.  JS `substring` clamps the
index, which `List.take` does as well. -/
def getLineNumber (src : List Char) (idx : Nat) : Nat :=
  (jsSplitNl (src.take idx)).length

/-- Length of the leading whitespace run (`\s*` resolved greedily). -/
def countLeadWs (cs : List Char) : Nat :=
  (cs.takeWhile isJsWs).length

/-- Does `cs` begin with `name` (case-insensitively) followed by `\s*` and
`=`?  Used for the attribute lookaheads `…\s*=` of the source patterns. -/
def attrAssignAt (name cs : List Char) : Bool :=
  match stripPrefixCI name cs with
  | none => false
  | some r =>
    match r.dropWhile isJsWs with
    | '=' :: _ => true
    | _ => false

/-- Scan of a `[^>]*`-bounded attribute span for `\b(name)\s*=` with any of
the given names; `prev` is the character preceding the current position
(needed for the word boundary `\b`). -/
def hasAttrAssign (names : List (List Char)) : Char → List Char → Bool
  | _, [] => false
  | prev, c :: cs =>
    (!isWordChar prev && names.any (fun n => attrAssignAt n (c :: cs))) ||
      hasAttrAssign names c cs

/-- Occurrence of `onClick\s*=` (case-insensitive, no word boundary in the
source pattern) inside a `[^>]`-bounded span. -/
def hasOnclickEq : List Char → Bool
  | [] => false
  | c :: cs => attrAssignAt "onclick".data (c :: cs) || hasOnclickEq cs

/-- Quote characters of the `["']` classes in the label regex. -/
def isQuoteChar (c : Char) : Bool :=
  c = '"' || c = Char.ofNat 39

/-- Is there any later quote character (`[^"']*["']` resolves to this)? -/
def closeQuoteExists : List Char → Bool
  | [] => false
  | c :: cs => isQuoteChar c || closeQuoteExists cs

/-- Does `cs` begin with the (case-sensitive) tail `for\s*=\s*["'][^"']*["']`
of the associated-label regex? -/
def forAssignQuoted (cs : List Char) : Bool :=
  match stripPrefixLit "for".data cs with
  | none => false
  | some r =>
    match r.dropWhile isJsWs with
    | '=' :: r2 =>
      match r2.dropWhile isJsWs with
      | q :: r3 => isQuoteChar q && closeQuoteExists r3
      | [] => false
    | _ => false

/-- Scan of the `[^>]*` span following `<label` for `\bfor\s*=\s*["'][^"']*["']`;
only the characters before `for` are bounded by the first `>`. -/
def labelRegionScan : Char → List Char → Bool
  | _, [] => false
  | prev, c :: cs =>
    if c = '>' then false
    else (!isWordChar prev && forAssignQuoted (c :: cs)) || labelRegionScan c cs

/-- Match of `/<label[^>]*\bfor\s*=\s*["'][^"']*["']/` anchored here. -/
def hasAssociatedLabelAt (cs : List Char) : Bool :=
  match stripPrefixLit "<label".data cs with
  | none => false
  | some r => labelRegionScan 'l' r

/-- The source's `hasAssociatedLabel` test
`/<label[^>]*\bfor\s*=\s*["'][^"']*["']/.test(sourceCode)` (no `i` flag). -/
def hasAssociatedLabel : List Char → Bool
  | [] => false
  | c :: cs => hasAssociatedLabelAt (c :: cs) || hasAssociatedLabel cs

/-- The decorative-keyword test of the AI layer:
`/(?:decorative|background|spacer|divider)/i.test(attrs)`. -/
def isDecorative (attrs : List Char) : Bool :=
  ["decorative", "background", "spacer", "divider"].any
    (fun k => containsSubstr (attrs.map lowerChar) k.data)

/-- Backtracking tail of the icon-button pattern: `.*?<\/svg>\s*<\/button>`
with the `s` flag.  Returns the number of characters consumed: the lazy
`.*?` extends to successive `</svg>` occurrences until `\s*</button>`
follows. -/
def findCloseSvgButton : List Char → Option Nat
  | [] => none
  | c :: cs =>
    match stripPrefixCI "</svg>".data (c :: cs) with
    | some afterSvg =>
      match stripPrefixCI "</button>".data (afterSvg.dropWhile isJsWs) with
      | some _ => some (6 + countLeadWs afterSvg + 9)
      | none => (findCloseSvgButton cs).map (· + 1)
    | none => (findCloseSvgButton cs).map (· + 1)

/-- Tail of the empty-link pattern: `(?:<[^>]*>)*\s*<\/a>` with greedy
repetition of complete tags and backtracking into the closing `</a>`.
Returns the number of characters consumed. -/
def linkCloseF : Nat → List Char → Option Nat
  | 0, _ => none
  | Nat.succ f, cs =>
    match cs with
    | '<' :: rest =>
      match splitAtGt rest with
      | some (body, after) =>
        match linkCloseF f after with
        | some n => some (1 + body.length + 1 + n)
        | none => if body.map lowerChar = ['/', 'a'] then some 4 else none
      | none => none
    | cs =>
      match stripPrefixCI "</a>".data (cs.dropWhile isJsWs) with
      | some _ => some (countLeadWs cs + 4)
      | none => none

/-- Wrapper running `linkCloseF` with sufficient fuel (each recursion steps
past a complete tag, so the length of the text bounds the depth). -/
def linkClose (cs : List Char) : Option Nat :=
  linkCloseF cs.length cs

/-- The source's `match.replace(/<[^>]*>/g, '')`: delete every complete
`<…>` tag (a `<` with no later `>` matches nothing and is kept). -/
def stripTagsF : Nat → List Char → List Char
  | 0, _ => []
  | Nat.succ f, cs =>
    match cs with
    | [] => []
    | '<' :: rest =>
      match splitAtGt rest with
      | some (_, after) => stripTagsF f after
      | none => '<' :: stripTagsF f rest
    | c :: rest => c :: stripTagsF f rest

/-- Wrapper running `stripTagsF` with sufficient fuel. -/
def stripTags (cs : List Char) : List Char :=
  stripTagsF cs.length cs

/-- Tail of the unlabeled-input pattern: the lazy attribute capture
followed by the alternation `(?:\s*\/>|>\s*<\/input>)`.  Walks the
candidate attribute end positions from the left; a bare `>` that does not
start `>\s*</input>` aborts the match, since `[^>]*?` cannot cross it.
Returns the number of characters consumed after `<input`. -/
def inputEnd : List Char → Option Nat
  | [] => none
  | c :: cs =>
    match stripPrefixCI "/>".data ((c :: cs).dropWhile isJsWs) with
    | some _ => some (countLeadWs (c :: cs) + 2)
    | none =>
      if c = '>' then
        match stripPrefixCI "</input>".data (cs.dropWhile isJsWs) with
        | some _ => some (1 + countLeadWs cs + 8)
        | none => none
      else (inputEnd cs).map (· + 1)

/-- Fix categories: the union of the category strings of both source
interfaces (the core file uses the first four, the AI layer all seven). -/
inductive Category where
  | images
  | interactiveElements
  | forms
  | navigation
  | semantics
  | aria
  | keyboardNavigation
deriving DecidableEq, Repr

/-- The `AccessibilityFix` interface of `accessibility-fixer.ts`. -/
structure AccessibilityFix where
  category : Category
  action : String
  selector : String
  summary : String
  line : Option Nat
deriving DecidableEq, Repr

/-- The `FixResult` interface of `accessibility-fixer.ts`. -/
structure FixResult where
  code : List Char
  fixes : List AccessibilityFix
  hasChanges : Bool
deriving DecidableEq, Repr

/-- The extended `AccessibilityFix` interface of the AI layer; `confidence`
is an exact two-digit decimal in the source, stored here as hundredths. -/
structure AIFix where
  category : Category
  action : String
  selector : String
  summary : String
  line : Option Nat
  confidence100 : Option Nat
  explanation : Option String
deriving DecidableEq, Repr

/-- Rule 1 matcher, `/<img(?![^>]*\balt\s*=)([^>]*?)>/gi` anchored at the
head of `cs`: returns the captured attribute span and the match length. -/
def imgStep (cs : List Char) : Option (List Char × Nat) :=
  match stripPrefixCI "<img".data cs with
  | none => none
  | some p =>
    match splitAtGt p with
    | none => none
    | some (attrs, _) =>
      if hasAttrAssign ["alt".data] 'g' attrs then none
      else some (attrs, 4 + attrs.length + 1)

/-- Rules 2 matcher,
`/<button(?!…)([^>]*?)>\s*<svg[^>]*>.*?<\/svg>\s*<\/button>/gis` anchored at
the head of `cs`; `names` is the attribute list of the negative lookahead
(`aria-label` in the core engine, also `aria-labelledby` in the AI layer).
Returns the match length. -/
def buttonStep (names : List (List Char)) (cs : List Char) : Option Nat :=
  match stripPrefixCI "<button".data cs with
  | none => none
  | some p =>
    match splitAtGt p with
    | none => none
    | some (attrs, q) =>
      if hasAttrAssign names 'n' attrs then none
      else
        match stripPrefixCI "<svg".data (q.dropWhile isJsWs) with
        | none => none
        | some r =>
          match splitAtGt r with
          | none => none
          | some (svgAttrs, body) =>
            match findCloseSvgButton body with
            | none => none
            | some n =>
              some (7 + attrs.length + 1 + countLeadWs q + 4 + svgAttrs.length + 1 + n)

/-- Rule 3 matcher, `/<a(?!…)([^>]*?)>\s*(?:<[^>]*>)*\s*<\/a>/gi` anchored at
the head of `cs`.  Returns the match length. -/
def linkStep (names : List (List Char)) (cs : List Char) : Option Nat :=
  match stripPrefixCI "<a".data cs with
  | none => none
  | some p =>
    match splitAtGt p with
    | none => none
    | some (attrs, q) =>
      if hasAttrAssign names 'a' attrs then none
      else
        match linkClose (q.dropWhile isJsWs) with
        | none => none
        | some m => some (2 + attrs.length + 1 + countLeadWs q + m)

/-- Rule 4 matcher, `/<div(?![^>]*\brole\s*=)([^>]*?)onClick\s*=\s*[^>]*?>/gi`
anchored at the head of `cs`.  The whole match always extends to the first
`>` after `<div`; it exists iff the lookahead passes and `onClick\s*=`
occurs in the bounded span.  Returns the match length. -/
def divStep (cs : List Char) : Option Nat :=
  match stripPrefixCI "<div".data cs with
  | none => none
  | some p =>
    match splitAtGt p with
    | none => none
    | some (region, _) =>
      if hasAttrAssign ["role".data] 'v' region then none
      else if hasOnclickEq region then some (4 + region.length + 1)
      else none

/-- Rule 5 matcher,
`/<input(?!…)([^>]*?)(?:\s*\/>|>\s*<\/input>)/gi` anchored at the head of
`cs`; `names` is the lookahead attribute list (`aria-label`, `id` in the
core engine, also `aria-labelledby` in the AI layer).  Returns the match
length. -/
def inputStep (names : List (List Char)) (cs : List Char) : Option Nat :=
  match stripPrefixCI "<input".data cs with
  | none => none
  | some p =>
    match splitAtGt p with
    | none => none
    | some (region, _) =>
      if hasAttrAssign names 't' region then none
      else
        match inputEnd p with
        | none => none
        | some e => some (6 + e)

/-- Fix record pushed by rule 1 of the core engine. -/
def imgFix (src attrs : List Char) (pos : Nat) : AccessibilityFix :=
  { category := Category.images
    action := "Added alt attribute"
    selector := if containsSubstr attrs "src".data then "img[src]" else "img"
    summary := "Added empty alt attribute for decorative image"
    line := some (getLineNumber src pos) }

/-- Fix record pushed by rule 2 of the core engine. -/
def buttonFix (src : List Char) (pos : Nat) : AccessibilityFix :=
  { category := Category.interactiveElements
    action := "Added aria-label"
    selector := "button > svg"
    summary := "Added aria-label for button with only SVG content"
    line := some (getLineNumber src pos) }

/-- Fix record pushed by rule 3 of the core engine. -/
def linkFix (src : List Char) (pos : Nat) : AccessibilityFix :=
  { category := Category.navigation
    action := "Added aria-label"
    selector := "a[href]"
    summary := "Added aria-label for link without text content"
    line := some (getLineNumber src pos) }

/-- Fix record pushed by rule 4 of the core engine. -/
def divFix (src : List Char) (pos : Nat) : AccessibilityFix :=
  { category := Category.interactiveElements
    action := "Added role and tabIndex"
    selector := "div[onClick]"
    summary := "Made clickable div keyboard accessible"
    line := some (getLineNumber src pos) }

/-- Fix record pushed by rule 5 of the core engine. -/
def inputFix (src : List Char) (pos : Nat) : AccessibilityFix :=
  { category := Category.forms
    action := "Added aria-label"
    selector := "input"
    summary := "Added aria-label for input without associated label"
    line := some (getLineNumber src pos) }

/-- Core rule 1 pass: the global replace loop of
`code.replace(/<img(?![^>]*\balt\s*=)([^>]*?)>/gi, …)`, which rewrites each
match to `` `<img${attrs} alt="">` `` and pushes a fix. -/
def runImgF (src : List Char) : Nat → List Char → Nat → List Char × List AccessibilityFix
  | 0, _, _ => ([], [])
  | Nat.succ f, cs0, pos =>
    match cs0 with
    | [] => ([], [])
    | c :: cs =>
      match imgStep (c :: cs) with
      | some (attrs, L) =>
        let r := runImgF src f ((c :: cs).drop L) (pos + L)
        ("<img".data ++ attrs ++ " alt=\"\">".data ++ r.1, imgFix src attrs pos :: r.2)
      | none =>
        let r := runImgF src f cs (pos + 1)
        (c :: r.1, r.2)

/-- Wrapper running `runImgF` with sufficient fuel (every match consumes at
least one character). -/
def runImg (src t : List Char) (pos : Nat) : List Char × List AccessibilityFix :=
  runImgF src t.length t pos

/-- Core rule 2 pass: rewrites each icon-only-button match through
`match.replace('<button', '<button aria-label="Button"')` and pushes a fix. -/
def runButtonF (src : List Char) : Nat → List Char → Nat → List Char × List AccessibilityFix
  | 0, _, _ => ([], [])
  | Nat.succ f, cs0, pos =>
    match cs0 with
    | [] => ([], [])
    | c :: cs =>
      match buttonStep ["aria-label".data] (c :: cs) with
      | some L =>
        let r := runButtonF src f ((c :: cs).drop L) (pos + L)
        (replaceFirstSubstr ((c :: cs).take L) "<button".data
            "<button aria-label=\"Button\"".data ++ r.1,
          buttonFix src pos :: r.2)
      | none =>
        let r := runButtonF src f cs (pos + 1)
        (c :: r.1, r.2)

/-- Wrapper running `runButtonF` with sufficient fuel. -/
def runButton (src t : List Char) (pos : Nat) : List Char × List AccessibilityFix :=
  runButtonF src t.length t pos

/-- Core rule 3 pass: consumes each empty-link match; when the match with
all tags stripped trims to nothing, rewrites it through
`match.replace('<a', '<a aria-label="Link"')` and pushes a fix, otherwise
leaves the match unchanged with no fix. -/
def runLinkF (src : List Char) : Nat → List Char → Nat → List Char × List AccessibilityFix
  | 0, _, _ => ([], [])
  | Nat.succ f, cs0, pos =>
    match cs0 with
    | [] => ([], [])
    | c :: cs =>
      match linkStep ["aria-label".data] (c :: cs) with
      | some L =>
        let r := runLinkF src f ((c :: cs).drop L) (pos + L)
        if jsTrim (stripTags ((c :: cs).take L)) = [] then
          (replaceFirstSubstr ((c :: cs).take L) "<a".data
              "<a aria-label=\"Link\"".data ++ r.1,
            linkFix src pos :: r.2)
        else ((c :: cs).take L ++ r.1, r.2)
      | none =>
        let r := runLinkF src f cs (pos + 1)
        (c :: r.1, r.2)

/-- Wrapper running `runLinkF` with sufficient fuel. -/
def runLink (src t : List Char) (pos : Nat) : List Char × List AccessibilityFix :=
  runLinkF src t.length t pos

/-- The conditional insertions of core rule 4: `role="button"` then
`tabIndex={0}`, each only when the (case-sensitive) substring test on the
current replacement fails, each inserted by replacing the first `<div`. -/
def divReplacement (matched : List Char) : List Char :=
  let r1 := if containsSubstr matched "role=".data then matched
    else replaceFirstSubstr matched "<div".data "<div role=\"button\"".data
  if containsSubstr r1 "tabIndex".data then r1
  else replaceFirstSubstr r1 "<div".data "<div tabIndex=\x7b0\x7d".data

/-- Core rule 4 pass: rewrites each clickable-div match through
`divReplacement` and always pushes a fix. -/
def runDivF (src : List Char) : Nat → List Char → Nat → List Char × List AccessibilityFix
  | 0, _, _ => ([], [])
  | Nat.succ f, cs0, pos =>
    match cs0 with
    | [] => ([], [])
    | c :: cs =>
      match divStep (c :: cs) with
      | some L =>
        let r := runDivF src f ((c :: cs).drop L) (pos + L)
        (divReplacement ((c :: cs).take L) ++ r.1, divFix src pos :: r.2)
      | none =>
        let r := runDivF src f cs (pos + 1)
        (c :: r.1, r.2)

/-- Wrapper running `runDivF` with sufficient fuel. -/
def runDiv (src t : List Char) (pos : Nat) : List Char × List AccessibilityFix :=
  runDivF src t.length t pos

/-- The insertion of core rule 5 into a match: depending on
`match.endsWith('/>')`, replace the first `/>` or the first `>`. -/
def inputInsertion (matched : List Char) : List Char :=
  if "/>".data.isSuffixOf matched then
    replaceFirstSubstr matched "/>".data " aria-label=\"Input\" />".data
  else replaceFirstSubstr matched ">".data " aria-label=\"Input\">".data

/-- Core rule 5 pass: each unlabeled-input match is left unchanged when the
original source contains an associated label anywhere, otherwise rewritten
through `inputInsertion` with a fix pushed. -/
def runInputF (src : List Char) : Nat → List Char → Nat → List Char × List AccessibilityFix
  | 0, _, _ => ([], [])
  | Nat.succ f, cs0, pos =>
    match cs0 with
    | [] => ([], [])
    | c :: cs =>
      match inputStep ["aria-label".data, "id".data] (c :: cs) with
      | some L =>
        let r := runInputF src f ((c :: cs).drop L) (pos + L)
        if hasAssociatedLabel src then ((c :: cs).take L ++ r.1, r.2)
        else (inputInsertion ((c :: cs).take L) ++ r.1, inputFix src pos :: r.2)
      | none =>
        let r := runInputF src f cs (pos + 1)
        (c :: r.1, r.2)

/-- Wrapper running `runInputF` with sufficient fuel. -/
def runInput (src t : List Char) (pos : Nat) : List Char × List AccessibilityFix :=
  runInputF src t.length t pos

/-- The core engine `fixAccessibility` of `accessibility-fixer.ts`: the five
rule passes applied in order, each over the text left by the previous one,
fixes accumulated in rule order, the final text trimmed, and
`hasChanges = fixes.length > 0`. -/
def fixAccessibility (sourceCode : List Char) : FixResult :=
  let p1 := runImg sourceCode sourceCode 0
  let p2 := runButton sourceCode p1.1 0
  let p3 := runLink sourceCode p2.1 0
  let p4 := runDiv sourceCode p3.1 0
  let p5 := runInput sourceCode p4.1 0
  let fixes := p1.2 ++ p2.2 ++ p3.2 ++ p4.2 ++ p5.2
  { code := jsTrim p5.1
    fixes := fixes
    hasChanges := decide (0 < fixes.length) }

/-- AI-layer rule 1 pass (`applyFixes`): rewrites each `<img>` match to
`` `<img${attrs} alt="${isDecorative ? '' : 'Descriptive text for image'}">` ``. -/
def aiImgPassF : Nat → List Char → List Char
  | 0, _ => []
  | Nat.succ f, cs0 =>
    match cs0 with
    | [] => []
    | c :: cs =>
      match imgStep (c :: cs) with
      | some (attrs, L) =>
        "<img".data ++ attrs ++ " alt=\"".data ++
          (if isDecorative attrs then [] else "Descriptive text for image".data) ++
          "\">".data ++ aiImgPassF f ((c :: cs).drop L)
      | none => c :: aiImgPassF f cs

/-- Wrapper running `aiImgPassF` with sufficient fuel. -/
def aiImgPass (t : List Char) : List Char :=
  aiImgPassF t.length t

/-- AI-layer rule 2 pass: lookahead also rejects `aria-labelledby`;
insertion is `match.replace('<button', '<button aria-label="Button action"')`. -/
def aiButtonPassF : Nat → List Char → List Char
  | 0, _ => []
  | Nat.succ f, cs0 =>
    match cs0 with
    | [] => []
    | c :: cs =>
      match buttonStep ["aria-label".data, "aria-labelledby".data] (c :: cs) with
      | some L =>
        replaceFirstSubstr ((c :: cs).take L) "<button".data
            "<button aria-label=\"Button action\"".data ++
          aiButtonPassF f ((c :: cs).drop L)
      | none => c :: aiButtonPassF f cs

/-- Wrapper running `aiButtonPassF` with sufficient fuel. -/
def aiButtonPass (t : List Char) : List Char :=
  aiButtonPassF t.length t

/-- AI-layer rule 3 pass: lookahead also rejects `aria-labelledby`;
insertion is `match.replace('<a', '<a aria-label="Link destination"')`. -/
def aiLinkPassF : Nat → List Char → List Char
  | 0, _ => []
  | Nat.succ f, cs0 =>
    match cs0 with
    | [] => []
    | c :: cs =>
      match linkStep ["aria-label".data, "aria-labelledby".data] (c :: cs) with
      | some L =>
        (if jsTrim (stripTags ((c :: cs).take L)) = [] then
          replaceFirstSubstr ((c :: cs).take L) "<a".data
            "<a aria-label=\"Link destination\"".data
        else (c :: cs).take L) ++ aiLinkPassF f ((c :: cs).drop L)
      | none => c :: aiLinkPassF f cs

/-- Wrapper running `aiLinkPassF` with sufficient fuel. -/
def aiLinkPass (t : List Char) : List Char :=
  aiLinkPassF t.length t

/-- The conditional insertions of the AI-layer div rule: `role="button"`,
`tabIndex={0}`, then the Enter-key `onKeyDown` handler, each guarded by a
substring test on the current replacement. -/
def aiDivReplacement (matched : List Char) : List Char :=
  let r2 := divReplacement matched
  if containsSubstr r2 "onKeyDown".data then r2
  else replaceFirstSubstr r2 "<div".data
    "<div onKeyDown=\x7b(e) => e.key === \"Enter\" && e.currentTarget.click()\x7d".data

/-- AI-layer rule 4 pass. -/
def aiDivPassF : Nat → List Char → List Char
  | 0, _ => []
  | Nat.succ f, cs0 =>
    match cs0 with
    | [] => []
    | c :: cs =>
      match divStep (c :: cs) with
      | some L => aiDivReplacement ((c :: cs).take L) ++ aiDivPassF f ((c :: cs).drop L)
      | none => c :: aiDivPassF f cs

/-- Wrapper running `aiDivPassF` with sufficient fuel. -/
def aiDivPass (t : List Char) : List Char :=
  aiDivPassF t.length t

/-- The insertion of the AI-layer input rule. -/
def aiInputInsertion (matched : List Char) : List Char :=
  if "/>".data.isSuffixOf matched then
    replaceFirstSubstr matched "/>".data " aria-label=\"Input field\" />".data
  else replaceFirstSubstr matched ">".data " aria-label=\"Input field\">".data

/-- AI-layer rule 5 pass: lookahead also rejects `aria-labelledby`; the
label test runs against `orig`, the unmodified argument of `applyFixes`. -/
def aiInputPassF (orig : List Char) : Nat → List Char → List Char
  | 0, _ => []
  | Nat.succ f, cs0 =>
    match cs0 with
    | [] => []
    | c :: cs =>
      match inputStep ["aria-label".data, "id".data, "aria-labelledby".data] (c :: cs) with
      | some L =>
        (if hasAssociatedLabel orig then (c :: cs).take L
         else aiInputInsertion ((c :: cs).take L)) ++ aiInputPassF orig f ((c :: cs).drop L)
      | none => c :: aiInputPassF orig f cs

/-- Wrapper running `aiInputPassF` with sufficient fuel. -/
def aiInputPass (orig t : List Char) : List Char :=
  aiInputPassF orig t.length t

/-- `AIAccessibilityService.applyFixes` (part_001, lines 311-364): the five
rewriting passes in order over the running text, then `trim`. -/
def applyFixes (code : List Char) : List Char :=
  jsTrim (aiInputPass code (aiDivPass (aiLinkPass (aiButtonPass (aiImgPass code)))))

/-- Fix record pushed by the image scan of `performBasicAnalysis`. -/
def basicImgFix (src attrs : List Char) (pos : Nat) : AIFix :=
  { category := Category.images
    action := "Added alt attribute"
    selector := if containsSubstr attrs "src".data then "img[src]" else "img"
    summary := if isDecorative attrs then "Added empty alt attribute for decorative image"
      else "Added descriptive alt attribute for meaningful image"
    line := some (getLineNumber src pos)
    confidence100 := some 95
    explanation := some (if isDecorative attrs then
      "Decorative images should have empty alt attributes to be ignored by screen readers"
      else "Images should have descriptive alt text for screen reader users") }

/-- Image scan of `performBasicAnalysis` (a `code.replace` whose result is
discarded: only the pushed fixes matter). -/
def basicImgScanF (src : List Char) : Nat → List Char → Nat → List AIFix
  | 0, _, _ => []
  | Nat.succ f, cs0, pos =>
    match cs0 with
    | [] => []
    | c :: cs =>
      match imgStep (c :: cs) with
      | some (attrs, L) => basicImgFix src attrs pos :: basicImgScanF src f ((c :: cs).drop L) (pos + L)
      | none => basicImgScanF src f cs (pos + 1)

/-- Wrapper running `basicImgScanF` with sufficient fuel. -/
def basicImgScan (src t : List Char) (pos : Nat) : List AIFix :=
  basicImgScanF src t.length t pos

/-- Button scan of `performBasicAnalysis`. -/
def basicButtonScanF (src : List Char) : Nat → List Char → Nat → List AIFix
  | 0, _, _ => []
  | Nat.succ f, cs0, pos =>
    match cs0 with
    | [] => []
    | c :: cs =>
      match buttonStep ["aria-label".data, "aria-labelledby".data] (c :: cs) with
      | some L =>
      { category := Category.interactiveElements
        action := "Added aria-label"
        selector := "button > svg"
        summary := "Added descriptive aria-label for button with only SVG content"
        line := some (getLineNumber src pos)
        confidence100 := some 90
        explanation := some "Buttons with only SVG content need aria-label for screen reader accessibility" } ::
        basicButtonScanF src f ((c :: cs).drop L) (pos + L)
      | none => basicButtonScanF src f cs (pos + 1)

/-- Wrapper running `basicButtonScanF` with sufficient fuel. -/
def basicButtonScan (src t : List Char) (pos : Nat) : List AIFix :=
  basicButtonScanF src t.length t pos

/-- Link scan of `performBasicAnalysis` (fix only when the stripped match
trims to nothing). -/
def basicLinkScanF (src : List Char) : Nat → List Char → Nat → List AIFix
  | 0, _, _ => []
  | Nat.succ f, cs0, pos =>
    match cs0 with
    | [] => []
    | c :: cs =>
      match linkStep ["aria-label".data, "aria-labelledby".data] (c :: cs) with
      | some L =>
      (if jsTrim (stripTags ((c :: cs).take L)) = [] then
        [{ category := Category.navigation
           action := "Added aria-label"
           selector := "a[href]"
           summary := "Added descriptive aria-label for link without text content"
           line := some (getLineNumber src pos)
           confidence100 := some 90
           explanation := some "Links without text content need aria-label for screen reader users" }]
         else []) ++ basicLinkScanF src f ((c :: cs).drop L) (pos + L)
      | none => basicLinkScanF src f cs (pos + 1)

/-- Wrapper running `basicLinkScanF` with sufficient fuel. -/
def basicLinkScan (src t : List Char) (pos : Nat) : List AIFix :=
  basicLinkScanF src t.length t pos

/-- Clickable-div scan of `performBasicAnalysis`. -/
def basicDivScanF (src : List Char) : Nat → List Char → Nat → List AIFix
  | 0, _, _ => []
  | Nat.succ f, cs0, pos =>
    match cs0 with
    | [] => []
    | c :: cs =>
      match divStep (c :: cs) with
      | some L =>
      { category := Category.interactiveElements
        action := "Added role and keyboard support"
        selector := "div[onClick]"
        summary := "Made clickable div keyboard accessible with role=\"button\" and tabIndex"
        line := some (getLineNumber src pos)
        confidence100 := some 85
        explanation := some "Clickable divs need proper ARIA roles and keyboard navigation support" } ::
        basicDivScanF src f ((c :: cs).drop L) (pos + L)
      | none => basicDivScanF src f cs (pos + 1)

/-- Wrapper running `basicDivScanF` with sufficient fuel. -/
def basicDivScan (src t : List Char) (pos : Nat) : List AIFix :=
  basicDivScanF src t.length t pos

/-- Unlabeled-input scan of `performBasicAnalysis` (label test against the
same scanned text). -/
def basicInputScanF (src : List Char) : Nat → List Char → Nat → List AIFix
  | 0, _, _ => []
  | Nat.succ f, cs0, pos =>
    match cs0 with
    | [] => []
    | c :: cs =>
      match inputStep ["aria-label".data, "id".data, "aria-labelledby".data] (c :: cs) with
      | some L =>
      (if hasAssociatedLabel src then []
       else
        [{ category := Category.forms
           action := "Added accessibility attributes"
           selector := "input"
           summary := "Added aria-label for input without associated label"
           line := some (getLineNumber src pos)
           confidence100 := some 90
           explanation := some "Form inputs need labels or aria-label for screen reader accessibility" }]) ++
        basicInputScanF src f ((c :: cs).drop L) (pos + L)
      | none => basicInputScanF src f cs (pos + 1)

/-- Wrapper running `basicInputScanF` with sufficient fuel. -/
def basicInputScan (src t : List Char) (pos : Nat) : List AIFix :=
  basicInputScanF src t.length t pos

/-- `AIAccessibilityService.performBasicAnalysis` (part_001, lines 80-171):
all five scans run over the same unmodified `code`, fixes concatenated in
rule order. -/
def performBasicAnalysis (code : List Char) : List AIFix :=
  basicImgScan code code 0 ++ basicButtonScan code code 0 ++ basicLinkScan code code 0 ++
    basicDivScan code code 0 ++ basicInputScan code code 0

/-- Diff entry types of `generateDiff`. -/
inductive DiffType where
  | added
  | removed
  | unchanged
deriving DecidableEq, Repr

/-- One row of the diff output. -/
structure DiffEntry where
  type : DiffType
  content : List Char
  lineNumber : Option Nat
deriving DecidableEq, Repr

/-- The source's `originalLines[i] || ''`: out-of-range indexing yields
`undefined`, and `|| ''` turns both `undefined` and the empty string into
`''` (the two coincide here). -/
def jsIndex (ls : List (List Char)) (k : Nat) : List Char :=
  (ls.get? k).getD []

/-- The cursor loop of `generateDiff`.  The current lines are compared
through `jsIndex`; the one-line lookahead compares the raw
`lines[i+1] === lines[j+1]`, where two out-of-range accesses give
`undefined === undefined` (true) and an out-of-range access never equals a
string — exactly `Option` equality on `List.get?`. -/
def diffLoopF (ol fl : List (List Char)) : Nat → Nat → Nat → List DiffEntry
  | 0, _, _ => []
  | Nat.succ f, i, j =>
    if i < ol.length ∨ j < fl.length then
      if jsIndex ol i = jsIndex fl j then
        ⟨DiffType.unchanged, jsIndex ol i, some (i + 1)⟩ :: diffLoopF ol fl f (i + 1) (j + 1)
      else if ol.length ≤ i then
        ⟨DiffType.added, jsIndex fl j, some (j + 1)⟩ :: diffLoopF ol fl f i (j + 1)
      else if fl.length ≤ j then
        ⟨DiffType.removed, jsIndex ol i, some (i + 1)⟩ :: diffLoopF ol fl f (i + 1) j
      else if ol.get? (i + 1) = fl.get? (j + 1) then
        ⟨DiffType.removed, jsIndex ol i, some (i + 1)⟩ ::
          ⟨DiffType.added, jsIndex fl j, some (j + 1)⟩ :: diffLoopF ol fl f (i + 1) (j + 1)
      else
        ⟨DiffType.unchanged, jsIndex ol i, some (i + 1)⟩ :: diffLoopF ol fl f (i + 1) (j + 1)
    else []

/-- Wrapper running `diffLoopF` with sufficient fuel: every iteration of
the loop strictly decreases `(ol.length - i) + (fl.length - j)`. -/
def diffLoop (ol fl : List (List Char)) (i j : Nat) : List DiffEntry :=
  diffLoopF ol fl ((ol.length - i) + (fl.length - j)) i j

/-- `generateDiff` of `accessibility-fixer.ts`: split both texts on
newlines and walk the two cursors from `(0, 0)`. -/
def generateDiff (original fixed : List Char) : List DiffEntry :=
  diffLoop (jsSplitNl original) (jsSplitNl fixed) 0 0

/-- The expected diff of a text against itself: one `unchanged` entry per
line, numbered consecutively from `k`. -/
def unchangedEntries : List (List Char) → Nat → List DiffEntry
  | [], _ => []
  | l :: ls, k => ⟨DiffType.unchanged, l, some k⟩ :: unchangedEntries ls (k + 1)

/-- Number of matches of the core unlabeled-input pattern in a text
(the candidate `<input>` tags rule 5 acts on). -/
def countInputMatchesF : Nat → List Char → Nat
  | 0, _ => 0
  | Nat.succ f, cs0 =>
    match cs0 with
    | [] => 0
    | c :: cs =>
      match inputStep ["aria-label".data, "id".data] (c :: cs) with
      | some L => 1 + countInputMatchesF f ((c :: cs).drop L)
      | none => countInputMatchesF f cs

/-- Wrapper running `countInputMatchesF` with sufficient fuel. -/
def countInputMatches (t : List Char) : Nat :=
  countInputMatchesF t.length t

/-- The text with the rule-5 placeholder `aria-label` inserted into every
match of the unlabeled-input pattern (what rule 5 does when no associated
label suppresses it). -/
def rewriteInputsF : Nat → List Char → List Char
  | 0, _ => []
  | Nat.succ f, cs0 =>
    match cs0 with
    | [] => []
    | c :: cs =>
      match inputStep ["aria-label".data, "id".data] (c :: cs) with
      | some L => inputInsertion ((c :: cs).take L) ++ rewriteInputsF f ((c :: cs).drop L)
      | none => c :: rewriteInputsF f cs

/-- Wrapper running `rewriteInputsF` with sufficient fuel. -/
def rewriteInputs (t : List Char) : List Char :=
  rewriteInputsF t.length t

theorem splitAtGt_len : ∀ {cs a r : List Char},
    splitAtGt cs = some (a, r) → a.length + 1 + r.length = cs.length := by
  intro cs
  induction cs with
  | nil => intro a r h; simp [splitAtGt] at h
  | cons c cs ih =>
    intro a r h
    by_cases hc : c = '>'
    · simp [splitAtGt, hc] at h
      obtain ⟨ha, hr⟩ := h
      subst ha; subst hr; simp; omega
    · simp [splitAtGt, hc] at h
      obtain ⟨p, hp, ha⟩ := h
      subst ha
      have := ih (a := p) (r := r) hp
      simp [List.length_cons]; omega

theorem stripPrefixCI_len : ∀ {p cs r : List Char},
    stripPrefixCI p cs = some r → r.length + p.length = cs.length := by
  intro p
  induction p with
  | nil => intro cs r h; simp [stripPrefixCI] at h; subst h; simp
  | cons x xs ih =>
    intro cs r h
    cases cs with
    | nil => simp [stripPrefixCI] at h
    | cons c cs =>
      by_cases hc : lowerChar c = lowerChar x
      · simp [stripPrefixCI, hc] at h
        have := ih h
        simp [List.length_cons]; omega
      · simp [stripPrefixCI, hc] at h

theorem imgStep_pos {cs : List Char} {x : List Char × Nat}
    (h : imgStep cs = some x) : 0 < x.2 := by
  obtain ⟨a, L⟩ := x
  unfold imgStep at h
  repeat' split at h
  all_goals simp at h
  all_goals omega

theorem buttonStep_pos {names : List (List Char)} {cs : List Char} {L : Nat}
    (h : buttonStep names cs = some L) : 0 < L := by
  unfold buttonStep at h
  repeat' split at h
  all_goals simp at h
  all_goals omega

theorem linkStep_pos {names : List (List Char)} {cs : List Char} {L : Nat}
    (h : linkStep names cs = some L) : 0 < L := by
  unfold linkStep at h
  repeat' split at h
  all_goals simp at h
  all_goals omega

theorem divStep_pos {cs : List Char} {L : Nat}
    (h : divStep cs = some L) : 0 < L := by
  unfold divStep at h
  repeat' split at h
  all_goals simp at h
  all_goals omega

theorem inputStep_pos {names : List (List Char)} {cs : List Char} {L : Nat}
    (h : inputStep names cs = some L) : 0 < L := by
  unfold inputStep at h
  repeat' split at h
  all_goals simp at h
  all_goals omega

/-- Membership-monotonicity of the attribute-lookahead scan: if one of the
listed names matches somewhere, the scan for a name list containing it
succeeds as well. -/
theorem hasAttrAssign_of_mem {names : List (List Char)} {n : List Char} (hn : n ∈ names) :
    ∀ prev region, hasAttrAssign [n] prev region = true →
      hasAttrAssign names prev region = true := by
  intro prev region
  induction region generalizing prev with
  | nil => intro h; simp [hasAttrAssign] at h
  | cons c cs ih =>
    intro h
    simp only [hasAttrAssign, Bool.or_eq_true] at h ⊢
    rcases h with h | h
    · left
      simp only [Bool.and_eq_true, List.any_eq_true] at h ⊢
      exact ⟨h.1, n, hn, by simpa using h.2⟩
    · right
      exact ih c h

/-- C1 counterexample: on the input `<img src="/x.png"/>` the core engine
`fixAccessibility` inserts an *empty* `alt=""` (its image rule has no
decorative-keyword branch), so the rewritten output does not contain a
non-empty alt attribute; it does record exactly one Images fix. -/
theorem C1_core_alt_is_empty :
    fixAccessibility "<img src=\"/x.png\"/>".data =
      { code := "<img src=\"/x.png\"/ alt=\"\">".data
        fixes := [{ category := Category.images
                    action := "Added alt attribute"
                    selector := "img[src]"
                    summary := "Added empty alt attribute for decorative image"
                    line := some 1 }]
        hasChanges := true } ∧
    containsSubstr (fixAccessibility "<img src=\"/x.png\"/>".data).code "alt=\"\"".data = true := by
  constructor
  · decide
  · decide

/-- C1 amended: the decorative-keyword behaviour the claim describes is that
of the AI-layer engine: on `<img src="/x.png"/>` (no decorative keyword)
`applyFixes` inserts the non-empty placeholder alt
`Descriptive text for image`, and `performBasicAnalysis` records exactly
one fix, of category Images; the core `fixAccessibility` instead always
inserts `alt=""` (with one Images fix), as the counterexample shows. -/
theorem C1_ai_alt_nonempty :
    applyFixes "<img src=\"/x.png\"/>".data =
      "<img src=\"/x.png\"/ alt=\"Descriptive text for image\">".data ∧
    performBasicAnalysis "<img src=\"/x.png\"/>".data =
      [{ category := Category.images
         action := "Added alt attribute"
         selector := "img[src]"
         summary := "Added descriptive alt attribute for meaningful image"
         line := some 1
         confidence100 := some 95
         explanation := some "Images should have descriptive alt text for screen reader users" }] ∧
    containsSubstr (applyFixes "<img src=\"/x.png\"/>".data) "alt=\"\"".data = false := by
  refine ⟨by decide, by decide, by decide⟩

/-- C2 counterexample: on `<div onClick={() => {}}/>` the core engine adds
`role="button"` and `tabIndex={0}` and records exactly one
Interactive Elements fix, but adds no keyboard handler at all (no `onKey`
substring appears in the output), contradicting the claim's keyboard-handler
conjunct. -/
theorem C2_core_no_keydown :
    fixAccessibility "<div onClick=\x7b() => \x7b\x7d\x7d/>".data =
      { code := "<div tabIndex=\x7b0\x7d role=\"button\" onClick=\x7b() => \x7b\x7d\x7d/>".data
        fixes := [{ category := Category.interactiveElements
                    action := "Added role and tabIndex"
                    selector := "div[onClick]"
                    summary := "Made clickable div keyboard accessible"
                    line := some 1 }]
        hasChanges := true } ∧
    containsSubstr (fixAccessibility "<div onClick=\x7b() => \x7b\x7d\x7d/>".data).code
      "onKey".data = false := by
  refine ⟨by decide, by decide⟩

/-- C2 amended: the keyboard-handler insertion the claim describes is done
by the AI-layer engine: on `<div onClick={() => {}}/>` `applyFixes` yields a
div with `role="button"`, `tabIndex={0}` and an `onKeyDown` handler firing
on the Enter key, and `performBasicAnalysis` records exactly one fix of
category Interactive Elements; the core `fixAccessibility` adds only the
role and tabIndex (one Interactive Elements fix, no keyboard handler). -/
theorem C2_ai_keydown :
    applyFixes "<div onClick=\x7b() => \x7b\x7d\x7d/>".data =
      "<div onKeyDown=\x7b(e) => e.key === \"Enter\" && e.currentTarget.click()\x7d tabIndex=\x7b0\x7d role=\"button\" onClick=\x7b() => \x7b\x7d\x7d/>".data ∧
    containsSubstr (applyFixes "<div onClick=\x7b() => \x7b\x7d\x7d/>".data)
      "role=\"button\"".data = true ∧
    containsSubstr (applyFixes "<div onClick=\x7b() => \x7b\x7d\x7d/>".data)
      "tabIndex=\x7b0\x7d".data = true ∧
    containsSubstr (applyFixes "<div onClick=\x7b() => \x7b\x7d\x7d/>".data)
      "onKeyDown=\x7b(e) => e.key === \"Enter\"".data = true ∧
    performBasicAnalysis "<div onClick=\x7b() => \x7b\x7d\x7d/>".data =
      [{ category := Category.interactiveElements
         action := "Added role and keyboard support"
         selector := "div[onClick]"
         summary := "Made clickable div keyboard accessible with role=\"button\" and tabIndex"
         line := some 1
         confidence100 := some 85
         explanation := some "Clickable divs need proper ARIA roles and keyboard navigation support" }] := by
  refine ⟨by decide, by decide, by decide, by decide, by decide⟩

/-- C5 counterexample: the core icon-only-button rule's lookahead checks
only `aria-label`, not `aria-labelledby`; on
`<button aria-labelledby="x"><svg></svg></button>` it therefore *does*
match, inserts `aria-label="Button"` and records an Interactive Elements
fix, contradicting the claim that such buttons are left unchanged. -/
theorem C5_core_labelledby_matched :
    fixAccessibility "<button aria-labelledby=\"x\"><svg></svg></button>".data =
      { code := "<button aria-label=\"Button\" aria-labelledby=\"x\"><svg></svg></button>".data
        fixes := [{ category := Category.interactiveElements
                    action := "Added aria-label"
                    selector := "button > svg"
                    summary := "Added aria-label for button with only SVG content"
                    line := some 1 }]
        hasChanges := true } := by
  decide

/-- C5 amended: the both-attributes predicate the claim describes belongs to
the AI-layer rule: whenever the attribute span of a `<button …>` candidate
contains an `aria-labelledby` assignment, the AI-layer matcher rejects it
(so `applyFixes` leaves the button unchanged and `performBasicAnalysis`
records no fix), while the core rule checks only `aria-label` and rewrites
such buttons, as the counterexample shows. -/
theorem C5_ai_labelledby_skipped :
    (∀ cs p attrs q,
        stripPrefixCI "<button".data cs = some p →
        splitAtGt p = some (attrs, q) →
        hasAttrAssign ["aria-labelledby".data] 'n' attrs = true →
        buttonStep ["aria-label".data, "aria-labelledby".data] cs = none) ∧
    applyFixes "<button aria-labelledby=\"x\"><svg></svg></button>".data =
      "<button aria-labelledby=\"x\"><svg></svg></button>".data ∧
    performBasicAnalysis "<button aria-labelledby=\"x\"><svg></svg></button>".data = [] := by
  refine ⟨?_, by decide, by decide⟩
  intro cs p attrs q h1 h2 h3
  have hmono : hasAttrAssign ["aria-label".data, "aria-labelledby".data] 'n' attrs = true :=
    hasAttrAssign_of_mem (by simp) 'n' attrs h3
  simp [buttonStep, h1, h2, hmono]

/-- C5 witness: the universal conjunct of `C5_ai_labelledby_skipped`
instantiated at the concrete counterexample button. -/
theorem C5_ai_labelledby_skipped_witness :
    buttonStep ["aria-label".data, "aria-labelledby".data]
      "<button aria-labelledby=\"x\"><svg></svg></button>".data = none :=
  C5_ai_labelledby_skipped.1
    "<button aria-labelledby=\"x\"><svg></svg></button>".data
    " aria-labelledby=\"x\"><svg></svg></button>".data
    " aria-labelledby=\"x\"".data
    "<svg></svg></button>".data
    (by decide) (by decide) (by decide)

/-- C3 counterexample: on `<div xrole= onClick={x}>` the clickable-div rule
matches although the (word-bounded) `role` lookahead passes, while the
unbounded substring test `includes('role=')` hits `xrole=` and suppresses
the role insertion; the second run therefore matches the same div again and
records one more Interactive Elements fix, so the second pass does not
produce zero fixes for an element already fixed in the first pass. -/
theorem C3_second_pass_refixes :
    fixAccessibility "<div xrole= onClick=\x7bx\x7d>".data =
      { code := "<div tabIndex=\x7b0\x7d xrole= onClick=\x7bx\x7d>".data
        fixes := [{ category := Category.interactiveElements
                    action := "Added role and tabIndex"
                    selector := "div[onClick]"
                    summary := "Made clickable div keyboard accessible"
                    line := some 1 }]
        hasChanges := true } ∧
    fixAccessibility "<div tabIndex=\x7b0\x7d xrole= onClick=\x7bx\x7d>".data =
      { code := "<div tabIndex=\x7b0\x7d xrole= onClick=\x7bx\x7d>".data
        fixes := [{ category := Category.interactiveElements
                    action := "Added role and tabIndex"
                    selector := "div[onClick]"
                    summary := "Made clickable div keyboard accessible"
                    line := some 1 }]
        hasChanges := true } := by
  refine ⟨by decide, by decide⟩

/-- C3 amended: idempotence does hold for each of the five core rules on its
canonical single-element scenario input — rerunning the engine on its own
output returns the same text with an empty fix list — but it is not a
universal law (see the counterexample). -/
theorem C3_idempotent_on_scenarios :
    fixAccessibility (fixAccessibility "<img src=\"/x.png\"/>".data).code =
      { code := (fixAccessibility "<img src=\"/x.png\"/>".data).code
        fixes := []
        hasChanges := false } ∧
    fixAccessibility (fixAccessibility "<button><svg></svg></button>".data).code =
      { code := (fixAccessibility "<button><svg></svg></button>".data).code
        fixes := []
        hasChanges := false } ∧
    fixAccessibility (fixAccessibility "<a href=\"#\"></a>".data).code =
      { code := (fixAccessibility "<a href=\"#\"></a>".data).code
        fixes := []
        hasChanges := false } ∧
    fixAccessibility (fixAccessibility "<div onClick=\x7b() => \x7b\x7d\x7d/>".data).code =
      { code := (fixAccessibility "<div onClick=\x7b() => \x7b\x7d\x7d/>".data).code
        fixes := []
        hasChanges := false } ∧
    fixAccessibility (fixAccessibility "<input />".data).code =
      { code := (fixAccessibility "<input />".data).code
        fixes := []
        hasChanges := false } := by
  refine ⟨by decide, by decide, by decide, by decide, by decide⟩

/-- C4 counterexample: `<input onChange={() => f()} />` is self-closed,
lacks `aria-label`, `id` and `aria-labelledby`, and the document contains
no label, yet no placeholder is inserted and no Forms fix is recorded: the
arrow `=>` inside the handler contains the first `>` after `<input`, which
the `[^>]*?` attribute capture of the rule cannot cross. -/
theorem C4_arrow_input_not_fixed :
    fixAccessibility "<input onChange=\x7b() => f()\x7d />".data =
      { code := "<input onChange=\x7b() => f()\x7d />".data
        fixes := []
        hasChanges := false } ∧
    hasAssociatedLabel "<input onChange=\x7b() => f()\x7d />".data = false ∧
    containsSubstr "<input onChange=\x7b() => f()\x7d />".data "<input".data = true ∧
    containsSubstr "<input onChange=\x7b() => f()\x7d />".data "aria-label".data = false ∧
    containsSubstr "<input onChange=\x7b() => f()\x7d />".data "id".data = false := by
  refine ⟨by decide, by decide, by decide, by decide, by decide⟩

/-- Any fuel at least `(ol.length - i) + (fl.length - j)` computes the same
diff as the wrapper `diffLoop`. -/
theorem diffLoopF_adequate (ol fl : List (List Char)) :
    ∀ f i j, (ol.length - i) + (fl.length - j) ≤ f →
      diffLoopF ol fl f i j = diffLoop ol fl i j := by
  intro f
  induction f using Nat.strong_induction_on with
  | _ f ih =>
    intro i j h
    cases f with
    | zero =>
      have hm : (ol.length - i) + (fl.length - j) = 0 := by omega
      rw [diffLoop, hm]
    | succ f =>
      by_cases hc : i < ol.length ∨ j < fl.length
      · have hm : (ol.length - i) + (fl.length - j) =
            ((ol.length - i) + (fl.length - j) - 1) + 1 := by omega
        rw [diffLoop, hm]
        simp only [diffLoopF]
        rw [if_pos hc, if_pos hc]
        split_ifs with h1 h2 h3 h4
        · rw [ih f (by omega) (i + 1) (j + 1) (by omega),
            ih ((ol.length - i) + (fl.length - j) - 1) (by omega) (i + 1) (j + 1) (by omega)]
        · rw [ih f (by omega) i (j + 1) (by omega),
            ih ((ol.length - i) + (fl.length - j) - 1) (by omega) i (j + 1) (by omega)]
        · rw [ih f (by omega) (i + 1) j (by omega),
            ih ((ol.length - i) + (fl.length - j) - 1) (by omega) (i + 1) j (by omega)]
        · rw [ih f (by omega) (i + 1) (j + 1) (by omega),
            ih ((ol.length - i) + (fl.length - j) - 1) (by omega) (i + 1) (j + 1) (by omega)]
        · rw [ih f (by omega) (i + 1) (j + 1) (by omega),
            ih ((ol.length - i) + (fl.length - j) - 1) (by omega) (i + 1) (j + 1) (by omega)]
      · have hm : (ol.length - i) + (fl.length - j) = 0 := by omega
        rw [diffLoop, hm]
        simp only [diffLoopF]
        rw [if_neg hc]

/-- One-step unfolding of the cursor loop of `generateDiff`. -/
theorem diffLoop_step (ol fl : List (List Char)) (i j : Nat) :
    diffLoop ol fl i j =
      if i < ol.length ∨ j < fl.length then
        if jsIndex ol i = jsIndex fl j then
          ⟨DiffType.unchanged, jsIndex ol i, some (i + 1)⟩ :: diffLoop ol fl (i + 1) (j + 1)
        else if ol.length ≤ i then
          ⟨DiffType.added, jsIndex fl j, some (j + 1)⟩ :: diffLoop ol fl i (j + 1)
        else if fl.length ≤ j then
          ⟨DiffType.removed, jsIndex ol i, some (i + 1)⟩ :: diffLoop ol fl (i + 1) j
        else if ol.get? (i + 1) = fl.get? (j + 1) then
          ⟨DiffType.removed, jsIndex ol i, some (i + 1)⟩ ::
            ⟨DiffType.added, jsIndex fl j, some (j + 1)⟩ :: diffLoop ol fl (i + 1) (j + 1)
        else
          ⟨DiffType.unchanged, jsIndex ol i, some (i + 1)⟩ :: diffLoop ol fl (i + 1) (j + 1)
      else [] := by
  by_cases hc : i < ol.length ∨ j < fl.length
  · have hm : (ol.length - i) + (fl.length - j) =
        ((ol.length - i) + (fl.length - j) - 1) + 1 := by omega
    conv_lhs => rw [diffLoop, hm]
    simp only [diffLoopF]
    rw [if_pos hc, if_pos hc]
    split_ifs with h1 h2 h3 h4
    · rw [diffLoopF_adequate ol fl _ (i + 1) (j + 1) (by omega)]
    · rw [diffLoopF_adequate ol fl _ i (j + 1) (by omega)]
    · rw [diffLoopF_adequate ol fl _ (i + 1) j (by omega)]
    · rw [diffLoopF_adequate ol fl _ (i + 1) (j + 1) (by omega)]
    · rw [diffLoopF_adequate ol fl _ (i + 1) (j + 1) (by omega)]
  · have hm : (ol.length - i) + (fl.length - j) = 0 := by omega
    rw [if_neg hc, diffLoop, hm]
    simp [diffLoopF]

/-- Out-of-range current-line access resolves to the empty string. -/
theorem jsIndex_out {ls : List (List Char)} {k : Nat} (h : ls.length ≤ k) :
    jsIndex ls k = [] := by
  unfold jsIndex
  rw [List.get?_eq_none.2 h]
  rfl

/-- In-range current-line access resolves to the list element. -/
theorem jsIndex_in {ls : List (List Char)} {k : Nat} (h : k < ls.length) :
    jsIndex ls k = ls.get ⟨k, h⟩ := by
  unfold jsIndex
  rw [List.get?_eq_get h]
  rfl

/-- C7 counterexample: for original `"a\n"` and rewritten `"b"`, at cursor
position `(0, 0)` both cursors are in range, the current lines differ, and
the claim's lookahead condition holds under the treat-out-of-range-as-empty
reading (`original[1]` is the empty line, `rewritten[1]` is out of range) —
yet the code's strict `===` lookahead sees `'' === undefined` as false, so
the loop emits an `unchanged` entry instead of the claimed
`removed`/`added` pair. -/
theorem C7_lookahead_undefined :
    generateDiff "a\n".data "b".data =
      [⟨DiffType.unchanged, "a".data, some 1⟩, ⟨DiffType.unchanged, [], some 2⟩] ∧
    0 < (jsSplitNl "a\n".data).length ∧
    0 < (jsSplitNl "b".data).length ∧
    jsIndex (jsSplitNl "a\n".data) 0 ≠ jsIndex (jsSplitNl "b".data) 0 ∧
    jsIndex (jsSplitNl "a\n".data) 1 = jsIndex (jsSplitNl "b".data) 1 := by
  refine ⟨by decide, by decide, by decide, by decide, by decide⟩

/-- C7 amended: the substitution step fires when the raw one-line lookahead
`original[i+1] === rewritten[j+1]` holds under JavaScript `===` semantics —
both next positions out of range (`undefined === undefined`), or both in
range and equal, i.e. `Option` equality of `List.get?` — not under the
out-of-range-as-empty-string reading; then a `removed` entry for the
current original line immediately precedes an `added` entry for the current
rewritten line and both cursors advance. -/
theorem C7_substitution_step (ol fl : List (List Char)) (i j : Nat)
    (hi : i < ol.length) (hj : j < fl.length)
    (hne : jsIndex ol i ≠ jsIndex fl j)
    (hla : ol.get? (i + 1) = fl.get? (j + 1)) :
    diffLoop ol fl i j =
      ⟨DiffType.removed, jsIndex ol i, some (i + 1)⟩ ::
        ⟨DiffType.added, jsIndex fl j, some (j + 1)⟩ :: diffLoop ol fl (i + 1) (j + 1) := by
  rw [diffLoop_step]
  rw [if_pos (Or.inl hi), if_neg hne, if_neg (by omega), if_neg (by omega), if_pos hla]

/-- C7 witness: the substitution step at a concrete configuration. -/
theorem C7_substitution_step_witness :
    diffLoop ["a".data, "c".data] ["b".data, "c".data] 0 0 =
      ⟨DiffType.removed, "a".data, some 1⟩ ::
        ⟨DiffType.added, "b".data, some 1⟩ ::
          diffLoop ["a".data, "c".data] ["b".data, "c".data] 1 1 :=
  C7_substitution_step ["a".data, "c".data] ["b".data, "c".data] 0 0
    (by decide) (by decide) (by decide) (by decide)

/-- C8 counterexample: for original `"a"` and rewritten `"a\n\nb"`, after
the original cursor is exhausted the remaining rewritten lines are `""` and
`"b"`; the empty remaining line is emitted as `unchanged` (the current-line
comparison `'' === ''` fires before the exhaustion branch), not as the
claimed `added` entry. -/
theorem C8_exhausted_empty_line :
    generateDiff "a".data "a\n\nb".data =
      [⟨DiffType.unchanged, "a".data, some 1⟩, ⟨DiffType.unchanged, [], some 2⟩,
        ⟨DiffType.added, "b".data, some 3⟩] ∧
    (jsSplitNl "a".data).length = 1 ∧
    jsSplitNl "a\n\nb".data = ["a".data, [], "b".data] ∧
    (generateDiff "a".data "a\n\nb".data).get? 1 =
      some ⟨DiffType.unchanged, [], some 2⟩ := by
  refine ⟨by decide, by decide, by decide, by decide⟩

/-- C8 amended: with the original cursor exhausted and rewritten lines
remaining, a *non-empty* remaining rewritten line is emitted as `added`
with `lineNumber = j+1` (advancing only `j`), but an *empty* remaining
rewritten line is emitted as `unchanged` with empty content and
`lineNumber = i+1`, advancing both cursors. -/
theorem C8_exhausted_step (ol fl : List (List Char)) (i j : Nat)
    (hi : ol.length ≤ i) (hj : j < fl.length) :
    (jsIndex fl j ≠ [] →
      diffLoop ol fl i j =
        ⟨DiffType.added, jsIndex fl j, some (j + 1)⟩ :: diffLoop ol fl i (j + 1)) ∧
    (jsIndex fl j = [] →
      diffLoop ol fl i j =
        ⟨DiffType.unchanged, [], some (i + 1)⟩ :: diffLoop ol fl (i + 1) (j + 1)) := by
  have h0 : jsIndex ol i = [] := jsIndex_out hi
  constructor
  · intro hne
    rw [diffLoop_step]
    rw [if_pos (Or.inr hj), if_neg (by rw [h0]; exact fun hh => hne hh.symm), if_pos hi]
  · intro he
    rw [diffLoop_step]
    rw [if_pos (Or.inr hj), if_pos (by rw [h0, he]), h0]

/-- C8 witness: the `added` branch at a concrete configuration. -/
theorem C8_exhausted_step_witness :
    diffLoop [] ["x".data] 0 0 =
      ⟨DiffType.added, "x".data, some 1⟩ :: diffLoop [] ["x".data] 0 1 :=
  (C8_exhausted_step [] ["x".data] 0 0 (by decide) (by decide)).1 (by decide)

/-- The loop on identical line lists from equal cursors yields one
`unchanged` entry per remaining line, numbered from `i+1`. -/
theorem diffLoop_self (ol : List (List Char)) :
    ∀ n i, ol.length - i ≤ n →
      diffLoop ol ol i i = unchangedEntries (ol.drop i) (i + 1) := by
  intro n
  induction n with
  | zero =>
    intro i h
    rw [diffLoop_step, if_neg (by omega), List.drop_eq_nil_of_le (by omega)]
    rfl
  | succ n ih =>
    intro i h
    by_cases hi : i < ol.length
    · rw [diffLoop_step, if_pos (Or.inl hi), if_pos rfl, ih (i + 1) (by omega)]
      rw [List.drop_eq_getElem_cons hi]
      simp [unchangedEntries, jsIndex_in hi]
    · rw [diffLoop_step, if_neg (by omega), List.drop_eq_nil_of_le (by omega)]
      rfl

/-- C9: diffing a text against itself yields exactly one `unchanged` entry
per line, in order, with contents the lines themselves and line numbers
running `1..N`. -/
theorem C9_diff_self (t : List Char) :
    generateDiff t t = unchangedEntries (jsSplitNl t) 1 := by
  unfold generateDiff
  have := diffLoop_self (jsSplitNl t) (jsSplitNl t).length 0 (by omega)
  simpa using this

/-- `split('\n')` produces one more entry than there are newlines. -/
theorem jsSplitNl_length (cs : List Char) :
    (jsSplitNl cs).length = cs.count '\n' + 1 := by
  induction cs with
  | nil => simp [jsSplitNl]
  | cons c cs ih =>
    by_cases hc : c = '\n'
    · subst hc
      simp [jsSplitNl, ih, List.count_cons]
    · rw [jsSplitNl]
      rw [if_neg hc]
      have hne : jsSplitNl cs ≠ [] := by
        intro hnil
        rw [hnil] at ih
        simp at ih
      cases h : jsSplitNl cs with
      | nil => exact absurd h hne
      | cons l ls =>
        rw [h] at ih
        simp only [List.length_cons] at ih ⊢
        rw [List.count_cons_of_ne (Ne.symm hc)]
        omega

/-- Line numbers computed by `getLineNumber` are at least 1 and at most the
line count of the original text, for any offset. -/
theorem getLineNumber_bounds (src : List Char) (idx : Nat) :
    1 ≤ getLineNumber src idx ∧ getLineNumber src idx ≤ (jsSplitNl src).length := by
  unfold getLineNumber
  rw [jsSplitNl_length, jsSplitNl_length]
  have := List.Sublist.count_le (List.take_sublist idx src) '\n'
  omega

theorem dropWhile_idem (p : Char → Bool) (l : List Char) :
    (l.dropWhile p).dropWhile p = l.dropWhile p := by
  induction l with
  | nil => rfl
  | cons c cs ih =>
    by_cases hp : p c
    · simp [List.dropWhile_cons, hp, ih]
    · simp [List.dropWhile_cons, hp]

theorem dropWhile_eq_self_of_prefixOf (p : Char → Bool) :
    ∀ {a b : List Char}, a.dropWhile p = a → b <+: a → b.dropWhile p = b := by
  intro a b ha hp
  cases b with
  | nil => rfl
  | cons c cs =>
    obtain ⟨t, ht⟩ := hp
    have hc : ¬ p c = true := by
      intro hpc
      rw [← ht, List.cons_append] at ha
      rw [List.dropWhile_cons, if_pos hpc] at ha
      have h1 := (List.dropWhile_sublist (l := cs ++ t) p).length_le
      rw [ha] at h1
      simp at h1
    rw [List.dropWhile_cons, if_neg hc]

/-- `trim` is idempotent, hence the engine's returned code is always a
trimmed string. -/
theorem jsTrim_idem (cs : List Char) : jsTrim (jsTrim cs) = jsTrim cs := by
  unfold jsTrim
  have hA : (cs.dropWhile isJsWs).dropWhile isJsWs = cs.dropWhile isJsWs :=
    dropWhile_idem isJsWs cs
  have hsuf : (cs.dropWhile isJsWs).reverse.dropWhile isJsWs <:+ (cs.dropWhile isJsWs).reverse :=
    ⟨(cs.dropWhile isJsWs).reverse.takeWhile isJsWs,
      List.takeWhile_append_dropWhile isJsWs (cs.dropWhile isJsWs).reverse⟩
  have hpre : ((cs.dropWhile isJsWs).reverse.dropWhile isJsWs).reverse <+: cs.dropWhile isJsWs := by
    have h2 := List.reverse_prefix.mpr hsuf
    simpa using h2
  rw [dropWhile_eq_self_of_prefixOf isJsWs hA hpre]
  rw [List.reverse_reverse, dropWhile_idem]

/-- Every fix pushed by the image pass has category Images and a line
computed by `getLineNumber` on the original source. -/
theorem runImgF_fixes (src : List Char) :
    ∀ f t pos, ∀ fx ∈ (runImgF src f t pos).2,
      fx.category = Category.images ∧ ∃ idx, fx.line = some (getLineNumber src idx) := by
  intro f
  induction f with
  | zero => intro t pos fx hm; simp [runImgF] at hm
  | succ f ih =>
    intro t pos fx hm
    cases t with
    | nil => simp [runImgF] at hm
    | cons c cs =>
      rw [runImgF] at hm
      cases hstep : imgStep (c :: cs) with
      | some x =>
        obtain ⟨attrs, L⟩ := x
        rw [hstep] at hm
        rcases List.mem_cons.1 hm with h | h
        · subst h
          exact ⟨rfl, pos, rfl⟩
        · exact ih _ _ fx h
      | none =>
        rw [hstep] at hm
        exact ih _ _ fx hm

/-- Every fix pushed by the icon-button pass has category
Interactive Elements and a `getLineNumber` line. -/
theorem runButtonF_fixes (src : List Char) :
    ∀ f t pos, ∀ fx ∈ (runButtonF src f t pos).2,
      fx.category = Category.interactiveElements ∧
        ∃ idx, fx.line = some (getLineNumber src idx) := by
  intro f
  induction f with
  | zero => intro t pos fx hm; simp [runButtonF] at hm
  | succ f ih =>
    intro t pos fx hm
    cases t with
    | nil => simp [runButtonF] at hm
    | cons c cs =>
      rw [runButtonF] at hm
      cases hstep : buttonStep ["aria-label".data] (c :: cs) with
      | some L =>
        rw [hstep] at hm
        rcases List.mem_cons.1 hm with h | h
        · subst h
          exact ⟨rfl, pos, rfl⟩
        · exact ih _ _ fx h
      | none =>
        rw [hstep] at hm
        exact ih _ _ fx hm

/-- Every fix pushed by the empty-link pass has category Navigation and a
`getLineNumber` line. -/
theorem runLinkF_fixes (src : List Char) :
    ∀ f t pos, ∀ fx ∈ (runLinkF src f t pos).2,
      fx.category = Category.navigation ∧
        ∃ idx, fx.line = some (getLineNumber src idx) := by
  intro f
  induction f with
  | zero => intro t pos fx hm; simp [runLinkF] at hm
  | succ f ih =>
    intro t pos fx hm
    cases t with
    | nil => simp [runLinkF] at hm
    | cons c cs =>
      rw [runLinkF] at hm
      cases hstep : linkStep ["aria-label".data] (c :: cs) with
      | some L =>
        rw [hstep] at hm
        dsimp only at hm
        by_cases hcond : jsTrim (stripTags ((c :: cs).take L)) = []
        · rw [if_pos hcond] at hm
          rcases List.mem_cons.1 hm with h | h
          · subst h
            exact ⟨rfl, pos, rfl⟩
          · exact ih _ _ fx h
        · rw [if_neg hcond] at hm
          exact ih _ _ fx hm
      | none =>
        rw [hstep] at hm
        exact ih _ _ fx hm

/-- Every fix pushed by the clickable-div pass has category
Interactive Elements and a `getLineNumber` line. -/
theorem runDivF_fixes (src : List Char) :
    ∀ f t pos, ∀ fx ∈ (runDivF src f t pos).2,
      fx.category = Category.interactiveElements ∧
        ∃ idx, fx.line = some (getLineNumber src idx) := by
  intro f
  induction f with
  | zero => intro t pos fx hm; simp [runDivF] at hm
  | succ f ih =>
    intro t pos fx hm
    cases t with
    | nil => simp [runDivF] at hm
    | cons c cs =>
      rw [runDivF] at hm
      cases hstep : divStep (c :: cs) with
      | some L =>
        rw [hstep] at hm
        rcases List.mem_cons.1 hm with h | h
        · subst h
          exact ⟨rfl, pos, rfl⟩
        · exact ih _ _ fx h
      | none =>
        rw [hstep] at hm
        exact ih _ _ fx hm

/-- Every fix pushed by the unlabeled-input pass has category Forms, the
fixed action and selector of the source, and a `getLineNumber` line. -/
theorem runInputF_fixes (src : List Char) :
    ∀ f t pos, ∀ fx ∈ (runInputF src f t pos).2,
      (fx.category = Category.forms ∧ fx.action = "Added aria-label" ∧
        fx.selector = "input") ∧
        ∃ idx, fx.line = some (getLineNumber src idx) := by
  intro f
  induction f with
  | zero => intro t pos fx hm; simp [runInputF] at hm
  | succ f ih =>
    intro t pos fx hm
    cases t with
    | nil => simp [runInputF] at hm
    | cons c cs =>
      rw [runInputF] at hm
      cases hstep : inputStep ["aria-label".data, "id".data] (c :: cs) with
      | some L =>
        rw [hstep] at hm
        dsimp only at hm
        by_cases hl : hasAssociatedLabel src = true
        · rw [if_pos hl] at hm
          exact ih _ _ fx hm
        · rw [if_neg hl] at hm
          rcases List.mem_cons.1 hm with h | h
          · subst h
            exact ⟨⟨rfl, rfl, rfl⟩, pos, rfl⟩
          · exact ih _ _ fx h
      | none =>
        rw [hstep] at hm
        exact ih _ _ fx hm

/-- C6: every fix the core engine records carries a line number computed by
`getLineNumber` against the original text, hence between 1 and the
original line count (and a fortiori at most line count + 1 as the spec
states). -/
theorem C6_line_bounds (s : List Char) (fx : AccessibilityFix) (n : Nat)
    (hm : fx ∈ (fixAccessibility s).fixes) (hl : fx.line = some n) :
    1 ≤ n ∧ n ≤ (jsSplitNl s).length + 1 := by
  simp only [fixAccessibility, List.mem_append] at hm
  have hidx : ∃ idx, fx.line = some (getLineNumber s idx) := by
    rcases hm with ((((h | h) | h) | h) | h)
    · exact (runImgF_fixes s s.length s 0 fx h).2
    · exact (runButtonF_fixes s _ _ 0 fx h).2
    · exact (runLinkF_fixes s _ _ 0 fx h).2
    · exact (runDivF_fixes s _ _ 0 fx h).2
    · exact (runInputF_fixes s _ _ 0 fx h).2
  obtain ⟨idx, hline⟩ := hidx
  rw [hl] at hline
  have hn : n = getLineNumber s idx := by
    exact Option.some.inj hline
  have := getLineNumber_bounds s idx
  omega

/-- C6 witness: the bounds discharged at the one-line input `<img>`. -/
theorem C6_line_bounds_witness :
    1 ≤ 1 ∧ 1 ≤ (jsSplitNl "<img>".data).length + 1 :=
  C6_line_bounds "<img>".data
    { category := Category.images
      action := "Added alt attribute"
      selector := "img"
      summary := "Added empty alt attribute for decorative image"
      line := some 1 } 1 (by decide) (by decide)

/-- An image pass that pushed no fix rewrote nothing. -/
theorem runImgF_nil (src : List Char) :
    ∀ f t pos, t.length ≤ f → (runImgF src f t pos).2 = [] →
      (runImgF src f t pos).1 = t := by
  intro f
  induction f with
  | zero =>
    intro t pos hf _
    cases t with
    | nil => rfl
    | cons c cs => simp at hf
  | succ f ih =>
    intro t pos hf h2
    cases t with
    | nil => rfl
    | cons c cs =>
      rw [runImgF] at h2 ⊢
      cases hstep : imgStep (c :: cs) with
      | some x =>
        obtain ⟨attrs, L⟩ := x
        rw [hstep] at h2
        simp at h2
      | none =>
        rw [hstep] at h2
        dsimp only at h2 ⊢
        rw [ih cs (pos + 1) (by simp at hf; omega) h2]

/-- A button pass that pushed no fix rewrote nothing. -/
theorem runButtonF_nil (src : List Char) :
    ∀ f t pos, t.length ≤ f → (runButtonF src f t pos).2 = [] →
      (runButtonF src f t pos).1 = t := by
  intro f
  induction f with
  | zero =>
    intro t pos hf _
    cases t with
    | nil => rfl
    | cons c cs => simp at hf
  | succ f ih =>
    intro t pos hf h2
    cases t with
    | nil => rfl
    | cons c cs =>
      rw [runButtonF] at h2 ⊢
      cases hstep : buttonStep ["aria-label".data] (c :: cs) with
      | some L =>
        rw [hstep] at h2
        simp at h2
      | none =>
        rw [hstep] at h2
        dsimp only at h2 ⊢
        rw [ih cs (pos + 1) (by simp at hf; omega) h2]

/-- A link pass that pushed no fix rewrote nothing (a match whose stripped
content is non-empty is emitted unchanged). -/
theorem runLinkF_nil (src : List Char) :
    ∀ f t pos, t.length ≤ f → (runLinkF src f t pos).2 = [] →
      (runLinkF src f t pos).1 = t := by
  intro f
  induction f with
  | zero =>
    intro t pos hf _
    cases t with
    | nil => rfl
    | cons c cs => simp at hf
  | succ f ih =>
    intro t pos hf h2
    cases t with
    | nil => rfl
    | cons c cs =>
      rw [runLinkF] at h2 ⊢
      cases hstep : linkStep ["aria-label".data] (c :: cs) with
      | some L =>
        rw [hstep] at h2
        dsimp only at h2 ⊢
        by_cases hcond : jsTrim (stripTags ((c :: cs).take L)) = []
        · rw [if_pos hcond] at h2
          simp at h2
        · rw [if_neg hcond] at h2 ⊢
          have hL := linkStep_pos hstep
          have hlen : ((c :: cs).drop L).length ≤ f := by
            simp at hf ⊢
            omega
          rw [ih ((c :: cs).drop L) (pos + L) hlen h2]
          exact List.take_append_drop L (c :: cs)
      | none =>
        rw [hstep] at h2
        dsimp only at h2 ⊢
        rw [ih cs (pos + 1) (by simp at hf; omega) h2]

/-- A div pass that pushed no fix rewrote nothing. -/
theorem runDivF_nil (src : List Char) :
    ∀ f t pos, t.length ≤ f → (runDivF src f t pos).2 = [] →
      (runDivF src f t pos).1 = t := by
  intro f
  induction f with
  | zero =>
    intro t pos hf _
    cases t with
    | nil => rfl
    | cons c cs => simp at hf
  | succ f ih =>
    intro t pos hf h2
    cases t with
    | nil => rfl
    | cons c cs =>
      rw [runDivF] at h2 ⊢
      cases hstep : divStep (c :: cs) with
      | some L =>
        rw [hstep] at h2
        simp at h2
      | none =>
        rw [hstep] at h2
        dsimp only at h2 ⊢
        rw [ih cs (pos + 1) (by simp at hf; omega) h2]

/-- An input pass that pushed no fix rewrote nothing (matches suppressed by
an associated label are emitted unchanged). -/
theorem runInputF_nil (src : List Char) :
    ∀ f t pos, t.length ≤ f → (runInputF src f t pos).2 = [] →
      (runInputF src f t pos).1 = t := by
  intro f
  induction f with
  | zero =>
    intro t pos hf _
    cases t with
    | nil => rfl
    | cons c cs => simp at hf
  | succ f ih =>
    intro t pos hf h2
    cases t with
    | nil => rfl
    | cons c cs =>
      rw [runInputF] at h2 ⊢
      cases hstep : inputStep ["aria-label".data, "id".data] (c :: cs) with
      | some L =>
        rw [hstep] at h2
        dsimp only at h2 ⊢
        by_cases hl : hasAssociatedLabel src = true
        · rw [if_pos hl] at h2 ⊢
          have hL := inputStep_pos hstep
          have hlen : ((c :: cs).drop L).length ≤ f := by
            simp at hf ⊢
            omega
          rw [ih ((c :: cs).drop L) (pos + L) hlen h2]
          exact List.take_append_drop L (c :: cs)
        · rw [if_neg hl] at h2
          simp at h2
      | none =>
        rw [hstep] at h2
        dsimp only at h2 ⊢
        rw [ih cs (pos + 1) (by simp at hf; omega) h2]

/-- C10: the core engine is a total function of the input text; when it
records no fixes the returned code is exactly the trimmed input and
`hasChanges` is false; the returned code is always a trimmed string; and
`hasChanges` holds exactly when the fix list is non-empty. -/
theorem C10_total_trim (s : List Char) :
    ((fixAccessibility s).fixes = [] →
      (fixAccessibility s).code = jsTrim s ∧ (fixAccessibility s).hasChanges = false) ∧
    jsTrim (fixAccessibility s).code = (fixAccessibility s).code ∧
    ((fixAccessibility s).hasChanges = true ↔ (fixAccessibility s).fixes ≠ []) := by
  have hfix : (fixAccessibility s).fixes =
      (runImg s s 0).2 ++ (runButton s (runImg s s 0).1 0).2 ++
        (runLink s (runButton s (runImg s s 0).1 0).1 0).2 ++
        (runDiv s (runLink s (runButton s (runImg s s 0).1 0).1 0).1 0).2 ++
        (runInput s (runDiv s (runLink s (runButton s (runImg s s 0).1 0).1 0).1 0).1 0).2 := rfl
  have hcode : (fixAccessibility s).code =
      jsTrim (runInput s (runDiv s (runLink s (runButton s (runImg s s 0).1 0).1 0).1 0).1 0).1 := rfl
  have hhc : (fixAccessibility s).hasChanges =
      decide (0 < (fixAccessibility s).fixes.length) := rfl
  refine ⟨?_, ?_, ?_⟩
  · intro h
    rw [hfix] at h
    simp only [List.append_eq_nil] at h
    obtain ⟨⟨⟨⟨h1, h2⟩, h3⟩, h4⟩, h5⟩ := h
    have e1 : (runImg s s 0).1 = s := runImgF_nil s s.length s 0 (by omega) h1
    have e2 : (runButton s (runImg s s 0).1 0).1 = (runImg s s 0).1 :=
      runButtonF_nil s _ _ 0 (by omega) h2
    have e3 : (runLink s (runButton s (runImg s s 0).1 0).1 0).1 =
        (runButton s (runImg s s 0).1 0).1 :=
      runLinkF_nil s _ _ 0 (by omega) h3
    have e4 : (runDiv s (runLink s (runButton s (runImg s s 0).1 0).1 0).1 0).1 =
        (runLink s (runButton s (runImg s s 0).1 0).1 0).1 :=
      runDivF_nil s _ _ 0 (by omega) h4
    have e5 : (runInput s (runDiv s (runLink s (runButton s (runImg s s 0).1 0).1 0).1 0).1 0).1 =
        (runDiv s (runLink s (runButton s (runImg s s 0).1 0).1 0).1 0).1 :=
      runInputF_nil s _ _ 0 (by omega) h5
    constructor
    · rw [hcode, e5, e4, e3, e2, e1]
    · rw [hhc, hfix, h1, h2, h3, h4, h5]
      rfl
  · rw [hcode]
    exact jsTrim_idem _
  · rw [hhc, decide_eq_true_iff]
    constructor
    · intro h hnil
      rw [hnil] at h
      simp at h
    · intro h
      cases hfx : (fixAccessibility s).fixes with
      | nil => exact absurd hfx h
      | cons a l => simp [hfx]

/-- C10 witness: at an input with no matches the engine returns the trimmed
input with no fixes and `hasChanges = false`. -/
theorem C10_total_trim_witness :
    (fixAccessibility "  hello ".data).code = jsTrim "  hello ".data ∧
    (fixAccessibility "  hello ".data).hasChanges = false :=
  (C10_total_trim "  hello ".data).1 (by decide)

/-- When the original source contains an associated label, the input pass
is the identity on any text and records no fix. -/
theorem runInputF_label (src : List Char) (hl : hasAssociatedLabel src = true) :
    ∀ f t pos, t.length ≤ f → runInputF src f t pos = (t, []) := by
  intro f
  induction f with
  | zero =>
    intro t pos hf
    cases t with
    | nil => rfl
    | cons c cs => simp at hf
  | succ f ih =>
    intro t pos hf
    cases t with
    | nil => rfl
    | cons c cs =>
      rw [runInputF]
      cases hstep : inputStep ["aria-label".data, "id".data] (c :: cs) with
      | some L =>
        dsimp only
        rw [if_pos hl]
        have hL := inputStep_pos hstep
        rw [ih ((c :: cs).drop L) (pos + L) (by simp at hf ⊢; omega)]
        simp [List.take_append_drop]
      | none =>
        dsimp only
        rw [ih cs (pos + 1) (by simp at hf; omega)]

/-- When the original source contains no associated label, the input pass
inserts the placeholder into every match and records exactly one fix per
match. -/
theorem runInputF_nolabel (src : List Char) (hl : hasAssociatedLabel src = false) :
    ∀ f t pos,
      (runInputF src f t pos).1 = rewriteInputsF f t ∧
      (runInputF src f t pos).2.length = countInputMatchesF f t := by
  intro f
  induction f with
  | zero => intro t pos; exact ⟨rfl, rfl⟩
  | succ f ih =>
    intro t pos
    cases t with
    | nil => exact ⟨rfl, rfl⟩
    | cons c cs =>
      rw [runInputF, rewriteInputsF, countInputMatchesF]
      cases hstep : inputStep ["aria-label".data, "id".data] (c :: cs) with
      | some L =>
        dsimp only
        rw [if_neg (by rw [hl]; exact Bool.false_ne_true)]
        constructor
        · rw [(ih ((c :: cs).drop L) (pos + L)).1]
        · simp only [List.length_cons]
          rw [(ih ((c :: cs).drop L) (pos + L)).2]
          omega
      | none =>
        dsimp only
        constructor
        · rw [(ih cs (pos + 1)).1]
        · rw [(ih cs (pos + 1)).2]

/-- C4: the associated-label gate of the unlabeled-input rule.  If the
original document matches the label regex anywhere, the whole rule-5 pass
is the identity (every matching input is left unchanged) and the engine
records no Forms fix at all.  Otherwise the pass inserts the placeholder
`aria-label` into every match of the unlabeled-input pattern, records
exactly one fix per match, and each such fix is a Forms fix with the
source's action and selector. -/
theorem C4_label_gate (s : List Char) :
    (hasAssociatedLabel s = true →
      (∀ t pos, runInput s t pos = (t, [])) ∧
      (∀ fx ∈ (fixAccessibility s).fixes, fx.category ≠ Category.forms)) ∧
    (hasAssociatedLabel s = false →
      ∀ t pos,
        (runInput s t pos).1 = rewriteInputs t ∧
        (runInput s t pos).2.length = countInputMatches t ∧
        (∀ fx ∈ (runInput s t pos).2, fx.category = Category.forms ∧
          fx.action = "Added aria-label" ∧ fx.selector = "input")) := by
  constructor
  · intro hl
    constructor
    · intro t pos
      exact runInputF_label s hl t.length t pos (by omega)
    · intro fx hm
      simp only [fixAccessibility, List.mem_append] at hm
      rcases hm with ((((h | h) | h) | h) | h)
      · have hcat := (runImgF_fixes s s.length s 0 fx h).1
        rw [hcat]
        decide
      · have hcat := (runButtonF_fixes s _ _ 0 fx h).1
        rw [hcat]
        decide
      · have hcat := (runLinkF_fixes s _ _ 0 fx h).1
        rw [hcat]
        decide
      · have hcat := (runDivF_fixes s _ _ 0 fx h).1
        rw [hcat]
        decide
      · have hempty := runInputF_label s hl
          (runDiv s (runLink s (runButton s (runImg s s 0).1 0).1 0).1 0).1.length
          (runDiv s (runLink s (runButton s (runImg s s 0).1 0).1 0).1 0).1 0 (by omega)
        rw [show (runInput s (runDiv s (runLink s (runButton s (runImg s s 0).1 0).1 0).1 0).1 0) =
            ((runDiv s (runLink s (runButton s (runImg s s 0).1 0).1 0).1 0).1, []) from hempty] at h
        simp at h
  · intro hl t pos
    refine ⟨(runInputF_nolabel s hl t.length t pos).1,
      (runInputF_nolabel s hl t.length t pos).2, ?_⟩
    intro fx hm
    exact (runInputF_fixes s t.length t pos fx hm).1

/-- C4 witness: both branches of the gate at concrete documents — with a
label present the pass leaves `<input />` untouched; with no label the fix
count equals the match count. -/
theorem C4_label_gate_witness :
    runInput "<label for=\"a\"><input />".data "<input />".data 0 = ("<input />".data, []) ∧
    (runInput "<input />".data "<input />".data 0).2.length =
      countInputMatches "<input />".data :=
  ⟨((C4_label_gate "<label for=\"a\"><input />".data).1 (by decide)).1 "<input />".data 0,
    (((C4_label_gate "<input />".data).2 (by decide)) "<input />".data 0).2.1⟩
